import Mathlib

/-!
Verification of the document retrieval and grounded-answer pipeline.

The functions below are shallow embeddings of the repository's Python code:
`chunk_text`, `store_chunks_with_embeddings`, `delete_document` and
`index_pdf_document` from `src/rag/indexing.py`; `search_similar_chunks`,
`retrieve_chunk_text_from_pdf`, `get_context_for_llm` and `generate_answer`
from `src/rag/rag.py`; `extract_ticker_from_question` from
`src/rag/ticker_utils.py`; the consumer loop of
`src/kafka_consumer/consumer_app.py` with `write_chat_message` of
`src/kafka_consumer/db_writer.py`.  Text is modelled as `List Char`
(Python strings are sequences of characters), Python integers as `Int`,
and the PostgreSQL tables as lists of rows in insertion order.
-/

namespace Site

/-- ASCII model of the regex word-character class `\w` that Python uses for
the word boundary `\b` (the repository feeds only ASCII text to these
functions, where `\w` is a letter, a digit or an underscore). -/
def isWordChar (c : Char) : Bool :=
  c.isAlpha || c.isDigit || c == '_'

/-- Python slice-index adjustment: a negative index counts from the end of
the sequence and is clamped below at 0; a nonnegative one is clamped above
at the length. -/
def pyAdjIdx (len : Nat) (i : Int) : Nat :=
  if i < 0 then ((len : Int) + i).toNat else min i.toNat len

/-- Python `text[a:b]` on a list of characters. -/
def pySlice (t : List Char) (a b : Int) : List Char :=
  let s := pyAdjIdx t.length a
  let e := pyAdjIdx t.length b
  (t.drop s).take (e - s)

/-- Whether position `j` of `t` holds a space (out of range: no). -/
def spaceAt (t : List Char) (j : Nat) : Bool :=
  t.getD j 'x' == ' '

/-- Python `text.rfind(' ', a, b)`: the largest index of a space inside the
adjusted index range, or -1 when there is none. -/
def pyRfindSpace (t : List Char) (a b : Int) : Int :=
  match ((List.range' (pyAdjIdx t.length a)
      (pyAdjIdx t.length b - pyAdjIdx t.length a)).filter
      (fun j => spaceAt t j)).getLast? with
  | some j => (j : Int)
  | none => -1

/-- One chunk produced by `DocumentIndexer.chunk_text`
(`src/rag/indexing.py`): the dictionary with keys `text`, `start_char`,
`end_char`. -/
structure Chunk where
  text : List Char
  start_char : Int
  end_char : Int
deriving DecidableEq

/-- `end_index = start_index + chunk_size` clamped to the text length
(`if end_index > len(text): end_index = len(text)` in `chunk_text`). -/
def clampEnd (t : List Char) (m : Nat) (start : Int) : Int :=
  if start + (m : Int) > (t.length : Int) then (t.length : Int) else start + (m : Int)

/-- The end index of the window that starts at `start`, as computed by one
iteration of `chunk_text`: the clamped `end_index`, retracted to the last
space strictly after `start_index` when the window's right edge falls
strictly inside the text and such a space exists. -/
def chunkEnd (t : List Char) (m : Nat) (start : Int) : Int :=
  if clampEnd t m start < (t.length : Int) then
    if pyRfindSpace t start (clampEnd t m start) > start then
      pyRfindSpace t start (clampEnd t m start)
    else clampEnd t m start
  else clampEnd t m start

/-- The next start index of `chunk_text`:
`start_index += chunk_size - overlap`, then `start_index = end_index` when
that did not advance past the current window's end. -/
def chunkNext (m o : Nat) (start e : Int) : Int :=
  if start + (m : Int) - (o : Int) ≥ e then e else start + (m : Int) - (o : Int)

/-- The `while start_index < len(text)` loop of `chunk_text`, with explicit
fuel: each call of the Python loop body is one recursion step, so for fuels
past the loop's iteration count the result is the Python function's return
value, and for a diverging loop the result is the prefix of the emitted
chunk trace. -/
def chunkTextAux (t : List Char) (m o : Nat) : Nat → Int → List Chunk
  | 0, _ => []
  | fuel + 1, start =>
    if start < (t.length : Int) then
      Chunk.mk (pySlice t start (chunkEnd t m start)) start (chunkEnd t m start) ::
        chunkTextAux t m o fuel (chunkNext m o start (chunkEnd t m start))
    else []

/-- `DocumentIndexer.chunk_text(text, chunk_size, overlap)`
(`src/rag/indexing.py` lines 120-155).  Fuel `len + 1` covers every
terminating run: when `overlap < chunk_size` the loop runs at most
`len(text)` times (proved below). -/
def chunk_text (t : List Char) (m o : Nat) : List Chunk :=
  chunkTextAux t m o (t.length + 1) 0

/-- A 33-character text with spaces at positions 1, 12 and 23. -/
def c2text : List Char := String.toList "x xxxxxxxxxx xxxxxxxxxx xxxxxxxxx"

/-- The `metadata` JSON object built for a chunk by `index_pdf_document`
(page number, page count, character offsets, fragment type, the optional
report fields), plus the `chunk_index` key that
`store_chunks_with_embeddings` adds before insertion.  There is no field
for the fragment's text. -/
structure ChunkMeta where
  page : Nat
  total_pages : Nat
  start_char : Int
  end_char : Int
  doc_type : String
  report_date : Option String
  report_type : Option String
  chunk_index : Option Nat
deriving DecidableEq

/-- One row of the `document_embeddings` table as inserted by
`store_chunks_with_embeddings` (`src/rag/indexing.py` lines 175-239):
identity columns, the chunk's SHA-256 digest, the embedding vector and the
metadata object.  `id` and `created_at` are database-assigned and play no
role in the claims; the schema has no text column. -/
structure EmbRow where
  stock_id : Int
  doc_name : String
  chunk_index : Nat
  chunk_hash : String
  embedding : List Rat
  metadata : ChunkMeta
deriving DecidableEq

/-- The rows produced by the insertion loop of
`store_chunks_with_embeddings`: Python `zip` truncates to the shortest
input, `i` is the `enumerate` counter (the row's `chunk_index`), the stored
hash is the digest of the chunk's text, and `metadata` gets
`chunk_index = i` before serialisation. -/
def insertRows (hash : List Char → String) (stock_id : Int) (doc_name : String) :
    Nat → List (List Char) → List (List Rat) → List ChunkMeta → List EmbRow
  | _, [], _, _ => []
  | _, _ :: _, [], _ => []
  | _, _ :: _, _ :: _, [] => []
  | i, chunk :: chunks, emb :: embs, meta :: metas =>
      EmbRow.mk stock_id doc_name i (hash chunk) emb
        (ChunkMeta.mk meta.page meta.total_pages meta.start_char meta.end_char
          meta.doc_type meta.report_date meta.report_type (some i)) ::
        insertRows hash stock_id doc_name (i + 1) chunks embs metas

/-- Whether a row belongs to the `(stock_id, doc_name)` document pair
(the `WHERE` clause of `delete_document`). -/
def matchesDoc (stock_id : Int) (doc_name : String) (r : EmbRow) : Bool :=
  r.stock_id == stock_id && r.doc_name == doc_name

/-- `DocumentIndexer.store_chunks_with_embeddings` (success path): appends
one row per zipped (chunk, embedding, metadata) triple to the table and
returns the inserted count.  The commit is all-or-nothing (on exception
the transaction is rolled back), so only this outcome changes the table.
The SHA-256 digest `_compute_chunk_hash` is the parameter `hash`. -/
def store_chunks_with_embeddings (hash : List Char → String) (db : List EmbRow)
    (stock_id : Int) (doc_name : String) (chunks : List (List Char))
    (embeddings : List (List Rat)) (metadata_list : List ChunkMeta) :
    List EmbRow × Nat :=
  (db ++ insertRows hash stock_id doc_name 0 chunks embeddings metadata_list,
   (insertRows hash stock_id doc_name 0 chunks embeddings metadata_list).length)

/-- `DocumentIndexer.delete_document`: deletes every row whose
`(stock_id, doc_name)` matches, returning the new table and the count. -/
def delete_document (db : List EmbRow) (stock_id : Int) (doc_name : String) :
    List EmbRow × Nat :=
  (db.filter (fun r => !(matchesDoc stock_id doc_name r)),
   (db.filter (fun r => matchesDoc stock_id doc_name r)).length)

/-- One page of extracted PDF text (`extract_text_from_pdf` output). -/
structure PageData where
  text : List Char
  page : Nat
  total_pages : Nat
deriving DecidableEq

/-- The per-page work of `index_pdf_document`: chunk the page's text with
the default parameters (250, 25) and build one metadata object per chunk:
page, page count, the chunk's offsets, `doc_type = "pdf"` and the optional
report fields (`chunk_index` is set later, at insertion time). -/
def pageChunks (report_date report_type : Option String) (p : PageData) :
    List (List Char × ChunkMeta) :=
  (chunk_text p.text 250 25).map (fun cd =>
    (cd.text, ChunkMeta.mk p.page p.total_pages cd.start_char cd.end_char
      "pdf" report_date report_type none))

/-- All chunk texts of a document, page by page (`all_chunks` in
`index_pdf_document`). -/
def docChunks (report_date report_type : Option String) (pages : List PageData) :
    List (List Char) :=
  (pages.flatMap (pageChunks report_date report_type)).map Prod.fst

/-- All chunk metadata objects of a document, in the same order
(`all_metadata` in `index_pdf_document`). -/
def docMetas (report_date report_type : Option String) (pages : List PageData) :
    List ChunkMeta :=
  (pages.flatMap (pageChunks report_date report_type)).map Prod.snd

/-- `DocumentIndexer.index_pdf_document` (success path), from extracted
page text on: chunks every page, embeds all chunk texts in one batch (the
sentence-transformer is the parameter `embed`) and stores the rows.  It
does NOT delete existing rows for the `(stock_id, doc_name)` pair; storing
the PDF into the archive is separate and does not touch this table. -/
def index_pdf_document (hash : List Char → String)
    (embed : List (List Char) → List (List Rat)) (db : List EmbRow)
    (stock_id : Int) (doc_name : String) (report_date report_type : Option String)
    (pages : List PageData) : List EmbRow :=
  (store_chunks_with_embeddings hash db stock_id doc_name
    (docChunks report_date report_type pages)
    (embed (docChunks report_date report_type pages))
    (docMetas report_date report_type pages)).1

/-- Re-indexing as the repository's driver performs it (`__main__` of
`src/rag/indexing.py`): `delete_document` for the pair, then
`index_pdf_document`. -/
def reindex_document (hash : List Char → String)
    (embed : List (List Char) → List (List Rat)) (stock_id : Int)
    (doc_name : String) (report_date report_type : Option String)
    (pages : List PageData) (db : List EmbRow) : List EmbRow :=
  index_pdf_document hash embed (delete_document db stock_id doc_name).1
    stock_id doc_name report_date report_type pages

/-- A concrete stand-in digest function for witnesses (the digest itself is
external library code; only its determinism matters to the claims). -/
def lenHash (c : List Char) : String := toString c.length

/-- A concrete stand-in embedding provider for witnesses: every chunk maps
to the fixed one-dimensional vector `[0]`. -/
def constEmbed (cs : List (List Char)) : List (List Rat) :=
  cs.map (fun _ => [(0 : Rat)])

/-- A one-page document with page text `"hello"`. -/
def c3pages : List PageData := [PageData.mk (String.toList "hello") 1 1]

/-- The table after indexing `c3pages` once into an empty table for
stock 7, document `"doc"`. -/
def c3db1 : List EmbRow :=
  index_pdf_document lenHash constEmbed [] 7 "doc" none none c3pages

/-- The table after running `index_pdf_document` a second time for the same
`(stock_id, doc_name)` pair and identical content, with no deletion in
between — exactly what re-running the indexing operation does. -/
def c3db2 : List EmbRow :=
  index_pdf_document lenHash constEmbed c3db1 7 "doc" none none c3pages

/-- A `document_embeddings` row together with its database-assigned serial
`id`, as returned by `search_similar_chunks`. -/
structure SearchRow where
  id : Nat
  row : EmbRow
deriving DecidableEq

/-- The `WHERE` clause of `search_similar_chunks`: the optional `stock_id`
and `doc_name` filters are conjunctive; an absent filter passes every
row. -/
def rowMatchesFilter (stock_id : Option Int) (doc_name : Option String)
    (r : SearchRow) : Bool :=
  (match stock_id with
   | none => true
   | some s => r.row.stock_id == s) &&
  (match doc_name with
   | none => true
   | some d => r.row.doc_name == d)

/-- What the SQL of `search_similar_chunks` guarantees about its result
(`SELECT ... WHERE <filters> ORDER BY embedding <=> query LIMIT top_k`):
the result is some `top_k`-element selection of the filtered rows that is
nondecreasing in cosine distance to the query and dominated by every
unselected row.  `dist` is pgvector's `<=>` distance of a stored embedding
to the fixed query vector.  Nothing beyond this ordering is guaranteed: the
query has no secondary sort key, so rows at equal distance may come back in
any order. -/
def searchResultSpec (dist : List Rat → Rat) (table : List SearchRow)
    (stock_id : Option Int) (doc_name : Option String) (k : Nat)
    (res : List SearchRow) : Prop :=
  res.length = min k (table.filter (rowMatchesFilter stock_id doc_name)).length ∧
  (∃ rest, (res ++ rest).Perm (table.filter (rowMatchesFilter stock_id doc_name)) ∧
    ∀ a ∈ res, ∀ b ∈ rest, dist a.row.embedding ≤ dist b.row.embedding) ∧
  res.Chain' (fun a b => dist a.row.embedding ≤ dist b.row.embedding)

/-- The `similarity` column: `1 - (embedding <=> query)`. -/
def similarity (dist : List Rat → Rat) (r : SearchRow) : Rat :=
  1 - dist r.row.embedding

/-- Two rows at distance 0 from the query, ids 1 and 2. -/
def c4row1 : SearchRow :=
  SearchRow.mk 1 (EmbRow.mk 7 "doc" 0 "h" [0] (ChunkMeta.mk 1 1 0 2 "pdf" none none (some 0)))

def c4row2 : SearchRow :=
  SearchRow.mk 2 (EmbRow.mk 7 "doc" 1 "h" [0] (ChunkMeta.mk 1 1 0 2 "pdf" none none (some 1)))

/-- A query at distance 0 from every stored embedding. -/
def c4dist : List Rat → Rat := fun _ => 0

/-- One retrieval result of `RAGRetriever.query` as consumed by
`get_context_for_llm`: metadata plus the optionally rehydrated text
(`retrieved_text` is present only when the PDF page could be read). -/
structure QueryResult where
  doc_name : String
  page : Option Nat
  chunk_index : Nat
  similarity : Rat
  retrieved_text : Option String
deriving DecidableEq

/-- One entry of the `sources` list built by `get_context_for_llm`. -/
structure SourceEntry where
  doc_name : String
  page : Option Nat
  chunk_index : Option Nat
  similarity : Rat
deriving DecidableEq

/-- The four context lines `get_context_for_llm` appends per result
(`enumerate(..., 1)` supplies `i`): the citation header, the page line, the
rehydrated text or the unavailable marker, and a blank separator. -/
def contextParts (i : Nat) (r : QueryResult) : List String :=
  ["[Document " ++ toString i ++ ": " ++ r.doc_name ++ "]",
   "Page " ++ (match r.page with
     | some p => toString p
     | none => "N/A"),
   (match r.retrieved_text with
     | some t => t
     | none => "[Text not available - PDF not found]"),
   ""]

/-- `RAGRetriever.get_context_for_llm`, from the retrieval results on:
the newline-joined context block and the ordered `sources` list. -/
def get_context_for_llm (results : List QueryResult) : String × List SourceEntry :=
  (String.intercalate "\n"
    (results.enum.flatMap (fun p => contextParts (p.1 + 1) p.2)),
   results.map (fun r => SourceEntry.mk r.doc_name r.page (some r.chunk_index) r.similarity))

/-- The grounding prompt `generate_answer` builds from the context block
and the question. -/
def buildPrompt (context query_text : String) : String :=
  "You are a financial document analyst. Answer the question based ONLY on the context provided below. \n\nIMPORTANT RULES:\n- Answer ONLY using information from the provided context\n- If the context doesn't contain the answer, say \"The provided documents do not contain information about this.\"\n- Do not use external knowledge or make assumptions\n- Cite which document and page you're referencing when possible\n\nCONTEXT FROM DOCUMENTS:\n"
    ++ context ++ "\n\nQUESTION: " ++ query_text
    ++ "\n\nANSWER (based only on the context above):"

/-- The answer record `generate_answer` returns. -/
structure Answer where
  query : String
  answer : String
  context : String
  sources : List SourceEntry
  message : String
deriving DecidableEq

/-- The fixed zero-result answer text. -/
def noDocsAnswer : String := "No relevant documents found for this query."

/-- `RAGRetriever.generate_answer`, given the retrieval results that
`get_context_for_llm` consumes.  The external completion capability (the
POST to Ollama) is the parameter `llm`, returning the response text or a
transport error; the second component counts how many times it was
invoked.  With zero sources the function short-circuits on the fixed
answer; on completion failure it falls back to the context-only answer. -/
def generate_answer (results : List QueryResult) (query_text : String)
    (llm : String → Except String String) : Answer × Nat :=
  if (get_context_for_llm results).2.isEmpty then
    (Answer.mk query_text noDocsAnswer "" [] "No documents available", 0)
  else
    match llm (buildPrompt (get_context_for_llm results).1 query_text) with
    | Except.ok resp =>
      (Answer.mk query_text resp (get_context_for_llm results).1
        (get_context_for_llm results).2 "Answer generated from documents only", 1)
    | Except.error e =>
      (Answer.mk query_text
        ("[LLM Error: " ++ e ++ "] Context retrieved but could not generate answer.")
        (get_context_for_llm results).1 (get_context_for_llm results).2
        "LLM unavailable, returning context only", 1)

/-- `RAGRetriever.retrieve_chunk_text_from_pdf`.  The Document Archive is
the parameter `fs`: `none` when `os.path.exists` fails; otherwise opening
the file either raises (`Except.error`, a corrupt file — caught by the
except clause) or yields the pages, each of whose `extract_text` call
either raises (caught, `None` returned) or returns the page's text.  Every
failure maps to `none`; the embedding is a total function, so no exception
reaches the caller. -/
def retrieve_chunk_text_from_pdf
    (fs : String → Option (Except String (List (Except String String))))
    (pdf_storage_dir : String) (stock_id : Int) (doc_name : String)
    (chunk_index : Nat) (page_num : Int) : Option String :=
  match fs (pdf_storage_dir ++ "/" ++ toString stock_id ++ "/" ++ doc_name) with
  | none => none
  | some (Except.error _) => none
  | some (Except.ok pages) =>
    if page_num < 1 ∨ (pages.length : Int) < page_num then none
    else
      match pages.get? (page_num - 1).toNat with
      | some (Except.ok text) => some text
      | some (Except.error _) => none
      | none => none

/-- One chat message event as consumed from the bus (the consumer only
passes the deserialised payload through to the durable write, so the
payload is abstract here). -/
structure ChatMsg where
  payload : String
deriving DecidableEq

/-- The observable state of the Event Consumer: the rows of `chat_history`
in insertion order, how many events were consumed, the consumer group's
committed read position, the log of `write_chat_message` calls as
(event index, outcome), and how many fresh connections the writer
attempted after failures. -/
structure ConsumerState where
  written : List ChatMsg
  consumed : Nat
  committed : Nat
  write_attempts : List (Nat × Bool)
  reconnect_attempts : Nat
deriving DecidableEq

/-- `ChatHistoryWriter.write_chat_message`: on success the INSERT commits
and `True` is returned; on failure the transaction is rolled back (no row)
and `False` is returned.  `ok` is whether this attempt's INSERT+commit
succeeds. -/
def write_chat_message (ok : Bool) (rows : List ChatMsg) (msg : ChatMsg) :
    List ChatMsg × Bool :=
  if ok then (rows ++ [msg], true) else (rows, false)

/-- One iteration of the consumption loop of `consumer_app.main` for one
polled message: `process_message` calls `write_chat_message` exactly once
and only logs the outcome; on failure the writer's except clause attempts
one fresh connection (`self.connect()`); the loop then advances to the
next message in either case.  Because the consumer is created with
`enable_auto_commit=True` (`auto_commit_interval_ms=1000`), the client
library commits the position of every polled message regardless of the
write outcome — modelled as committing the consumed position at each poll
boundary. -/
def consumeStep (s : ConsumerState) (msg : ChatMsg) (ok : Bool) : ConsumerState :=
  ConsumerState.mk
    (write_chat_message ok s.written msg).1
    (s.consumed + 1)
    (s.consumed + 1)
    (s.write_attempts ++ [(s.consumed, ok)])
    (s.reconnect_attempts + (if ok then 0 else 1))

def initConsumer : ConsumerState := ConsumerState.mk [] 0 0 [] 0

/-- A run of the Event Consumer over a finite sequence of events, each
paired with whether its durable write succeeds. -/
def consumerRun (events : List (ChatMsg × Bool)) : ConsumerState :=
  events.foldl (fun s e => consumeStep s e.1 e.2) initConsumer

/-- The maximal word-character runs of a string, in order. -/
def wordRuns (s : List Char) : List (List Char) :=
  match s.foldr (fun c acc =>
      if isWordChar c then (c :: acc.1, acc.2)
      else ([], if acc.1.isEmpty then acc.2 else acc.1 :: acc.2)) ([], []) with
  | (cur, runs) => if cur.isEmpty then runs else cur :: runs

/-- `re.findall(r'\b[A-Z]{1,5}\b', question)`: the maximal word-character
runs that consist of one to five uppercase letters (a shorter uppercase
piece of a longer run has no word boundary at its end, so only whole runs
match). -/
def findUppercaseTokens (q : List Char) : List (List Char) :=
  (wordRuns q).filter (fun r =>
    decide (1 ≤ r.length) && decide (r.length ≤ 5) &&
    r.all (fun c => decide ('A' ≤ c ∧ c ≤ 'Z')))

/-- The stoplist of common English words excluded from ticker candidates. -/
def ENGLISH_WORDS : List String :=
  ["I", "A", "USA", "US", "UK", "CEO", "CFO", "IPO", "ETF", "NYSE", "NASDAQ", "SEC"]

/-- The curated company-name-to-ticker table of `src/rag/ticker_utils.py`,
in its (insertion-order-preserving) dictionary order. -/
def TICKER_KEYWORDS : List (String × String) :=
  [("apple", "AAPL"), ("tesla", "TSLA"), ("microsoft", "MSFT"),
   ("amazon", "AMZN"), ("google", "GOOGL"), ("alphabet", "GOOGL"),
   ("meta", "META"), ("facebook", "META"), ("nvidia", "NVDA"),
   ("amd", "AMD"), ("intel", "INTC"), ("netflix", "NFLX"),
   ("twitter", "X"), ("spacex", "TSLA"), ("berkshire", "BRK.B"),
   ("walmart", "WMT"), ("jpmorgan", "JPM"), ("visa", "V"),
   ("mastercard", "MA"), ("coca-cola", "KO"), ("pepsi", "PEP"),
   ("boeing", "BA"), ("disney", "DIS"), ("nike", "NKE")]

/-- Whether `pat` occurs in `text` starting at position `i`. -/
def subAt (text pat : List Char) (i : Nat) : Bool :=
  (text.drop i).take pat.length == pat

/-- A word boundary to the left of position `i` (start of text or a
non-word character before `i`; the pattern characters there are word
characters). -/
def leftBoundary (text : List Char) (i : Nat) : Bool :=
  i == 0 || !(isWordChar (text.getD (i - 1) ' '))

/-- A word boundary at position `j` coming after a word character (end of
text or a non-word character at `j`). -/
def rightBoundary (text : List Char) (j : Nat) : Bool :=
  !(isWordChar (text.getD j ' '))

/-- `re.search(r'\b' + re.escape(name) + r'\b', text)`: the name occurs
somewhere with word boundaries on both sides (every name in the table
starts and ends with a letter). -/
def searchWholeWord (pat text : List Char) : Bool :=
  (List.range (text.length + 1)).any (fun i =>
    subAt text pat i && leftBoundary text i && rightBoundary text (i + pat.length))

def apos : Char := Char.ofNat 39

/-- `re.search(r'\b' + re.escape(name) + r"'s?\b", text)`: the name with a
left boundary, then an apostrophe, then either an `s` followed by a
boundary, or — the engine backtracking to the bare apostrophe — a word
character right after the apostrophe (a boundary after a non-word
character needs a word character next). -/
def searchPossessive (pat text : List Char) : Bool :=
  (List.range (text.length + 1)).any (fun i =>
    subAt text pat i && leftBoundary text i &&
    (text.getD (i + pat.length) ' ' == apos) &&
    ((text.getD (i + pat.length + 1) ' ' == 's' &&
        !(isWordChar (text.getD (i + pat.length + 2) ' '))) ||
      isWordChar (text.getD (i + pat.length + 1) ' ')))

/-- Python `str.lower()` (the inputs are ASCII). -/
def pyLower (s : List Char) : List Char := s.map Char.toLower

/-- `extract_ticker_from_question` (`src/rag/ticker_utils.py` lines
42-89): empty questions yield nothing; otherwise the first uppercase
ticker-like token not in the stoplist wins; else the first whole-word
company-name match in table order; else the first possessive-form match;
else nothing. -/
def extract_ticker_from_question (question : String) : Option String :=
  if question.isEmpty then none
  else
    match (findUppercaseTokens question.toList).filter
        (fun r => !((ENGLISH_WORDS.map String.toList).contains r)) with
    | r :: _ => some (String.mk r)
    | [] =>
      match TICKER_KEYWORDS.find? (fun p =>
          searchWholeWord p.1.toList (pyLower question.toList)) with
      | some p => some p.2
      | none =>
        match TICKER_KEYWORDS.find? (fun p =>
            searchPossessive p.1.toList (pyLower question.toList)) with
        | some p => some p.2
        | none => none

lemma pyAdjIdx_le_len (len : Nat) (i : Int) : pyAdjIdx len i ≤ len := by
  unfold pyAdjIdx
  split
  · omega
  · exact min_le_right _ _

lemma pyAdjIdx_le_self (len : Nat) (i : Int) (h : 0 ≤ i) :
    (pyAdjIdx len i : Int) ≤ i := by
  unfold pyAdjIdx
  split
  · omega
  · have : min i.toNat len ≤ i.toNat := min_le_left _ _
    omega

lemma pyAdjIdx_eq_toNat (len : Nat) (i : Int) (h0 : 0 ≤ i) (hl : i ≤ len) :
    pyAdjIdx len i = i.toNat := by
  unfold pyAdjIdx
  split
  · omega
  · have : i.toNat ≤ len := by omega
    exact min_eq_left this

lemma pySlice_eq_drop_take (t : List Char) (a b : Int)
    (ha0 : 0 ≤ a) (hal : a ≤ t.length) (hb0 : 0 ≤ b) (hbl : b ≤ t.length) :
    pySlice t a b = (t.drop a.toNat).take (b.toNat - a.toNat) := by
  unfold pySlice
  rw [pyAdjIdx_eq_toNat _ _ ha0 hal, pyAdjIdx_eq_toNat _ _ hb0 hbl]

/-- When `rfind` reports a space (result above -1), the reported index lies
strictly below the upper search bound. -/
lemma pyRfindSpace_lt (t : List Char) (a b : Int) (hb0 : 0 ≤ b) :
    pyRfindSpace t a b = -1 ∨ pyRfindSpace t a b < min b (t.length : Int) := by
  unfold pyRfindSpace
  cases hg : ((List.range' (pyAdjIdx t.length a)
      (pyAdjIdx t.length b - pyAdjIdx t.length a)).filter
      (fun j => spaceAt t j)).getLast? with
  | none => exact Or.inl rfl
  | some j =>
    refine Or.inr ?_
    have hmem := List.mem_of_mem_getLast? (l := (List.range' (pyAdjIdx t.length a)
      (pyAdjIdx t.length b - pyAdjIdx t.length a)).filter (fun j => spaceAt t j))
      (a := j) (by rw [hg]; rfl)
    have hr := (List.mem_filter.mp hmem).1
    have hj := List.mem_range'_1.mp hr
    have h1 := pyAdjIdx_le_len t.length b
    have h2 := pyAdjIdx_le_self t.length b hb0
    simp only [lt_min_iff]
    omega

lemma clampEnd_gt (t : List Char) (m : Nat) (start : Int)
    (hm : 1 ≤ m) (hlt : start < (t.length : Int)) :
    start < clampEnd t m start := by
  unfold clampEnd
  split <;> omega

lemma clampEnd_le_len (t : List Char) (m : Nat) (start : Int) :
    clampEnd t m start ≤ (t.length : Int) := by
  unfold clampEnd
  split <;> omega

lemma clampEnd_le_add (t : List Char) (m : Nat) (start : Int) :
    clampEnd t m start ≤ start + (m : Int) := by
  unfold clampEnd
  split <;> omega

lemma clampEnd_nonneg (t : List Char) (m : Nat) (start : Int) (h0 : 0 ≤ start) :
    0 ≤ clampEnd t m start := by
  unfold clampEnd
  split <;> omega

lemma chunkEnd_gt (t : List Char) (m : Nat) (start : Int)
    (hm : 1 ≤ m) (hlt : start < (t.length : Int)) :
    start < chunkEnd t m start := by
  have h1 := clampEnd_gt t m start hm hlt
  unfold chunkEnd
  split
  · split <;> omega
  · omega

lemma chunkEnd_le_len (t : List Char) (m : Nat) (start : Int) (h0 : 0 ≤ start) :
    chunkEnd t m start ≤ (t.length : Int) := by
  have h1 := clampEnd_le_len t m start
  have h2 := pyRfindSpace_lt t start (clampEnd t m start) (clampEnd_nonneg t m start h0)
  unfold chunkEnd
  rcases h2 with h2 | h2
  · split
    · split <;> omega
    · omega
  · simp only [lt_min_iff] at h2
    split
    · split <;> omega
    · omega

lemma chunkEnd_le_add (t : List Char) (m : Nat) (start : Int) (h0 : 0 ≤ start) :
    chunkEnd t m start ≤ start + (m : Int) := by
  have h1 := clampEnd_le_add t m start
  have h2 := pyRfindSpace_lt t start (clampEnd t m start) (clampEnd_nonneg t m start h0)
  unfold chunkEnd
  rcases h2 with h2 | h2
  · split
    · split <;> omega
    · omega
  · simp only [lt_min_iff] at h2
    split
    · split <;> omega
    · omega

lemma chunkNext_gt (m o : Nat) (start e : Int) (ho : o < m) (he : start < e) :
    start < chunkNext m o start e := by
  unfold chunkNext
  split <;> omega

lemma chunkNext_le (m o : Nat) (start e : Int) :
    chunkNext m o start e ≤ e := by
  unfold chunkNext
  split <;> omega

lemma chunkNext_overlap (m o : Nat) (start e : Int) (hle : e ≤ start + (m : Int)) :
    e - chunkNext m o start e ≤ (o : Int) := by
  unfold chunkNext
  split <;> omega

/-- Every chunk the loop emits from a nonnegative start has in-range,
nonempty, `chunk_size`-bounded offsets, and its `text` is exactly the slice
of the input at those offsets. -/
lemma chunkTextAux_mem (t : List Char) (m o : Nat) (ho : o < m) :
    ∀ (fuel : Nat) (start : Int), 0 ≤ start →
    ∀ c ∈ chunkTextAux t m o fuel start,
      0 ≤ c.start_char ∧ c.start_char < c.end_char ∧
      c.end_char ≤ (t.length : Int) ∧
      c.end_char - c.start_char ≤ (m : Int) ∧
      c.text = (t.drop c.start_char.toNat).take (c.end_char.toNat - c.start_char.toNat)
  | 0, start, _, c, hc => by simp [chunkTextAux] at hc
  | fuel + 1, start, h0, c, hc => by
    rw [chunkTextAux] at hc
    by_cases hlt : start < (t.length : Int)
    · rw [if_pos hlt] at hc
      have hm : 1 ≤ m := by omega
      have hgt := chunkEnd_gt t m start hm hlt
      have hlen := chunkEnd_le_len t m start h0
      have hadd := chunkEnd_le_add t m start h0
      rcases List.mem_cons.mp hc with hhead | htail
      · subst hhead
        dsimp only
        refine ⟨h0, hgt, hlen, by omega, ?_⟩
        exact pySlice_eq_drop_take t start (chunkEnd t m start)
          h0 (by omega) (by omega) hlen
      · have hnext0 : 0 ≤ chunkNext m o start (chunkEnd t m start) := by
          have := chunkNext_gt m o start (chunkEnd t m start) ho hgt
          omega
        exact chunkTextAux_mem t m o ho fuel _ hnext0 c htail
    · rw [if_neg hlt] at hc
      simp at hc

/-- Every position of the text from `start` on is covered by some emitted
chunk, when the fuel covers the remaining length. -/
lemma chunkTextAux_cover (t : List Char) (m o : Nat) (ho : o < m) :
    ∀ (fuel : Nat) (start : Int), 0 ≤ start → (t.length : Int) ≤ start + fuel →
    ∀ p : Int, start ≤ p → p < (t.length : Int) →
    ∃ c ∈ chunkTextAux t m o fuel start, c.start_char ≤ p ∧ p < c.end_char
  | 0, start, _, hfuel, p, hsp, hpl => by omega
  | fuel + 1, start, h0, hfuel, p, hsp, hpl => by
    have hlt : start < (t.length : Int) := by omega
    rw [chunkTextAux, if_pos hlt]
    have hm : 1 ≤ m := by omega
    have hgt := chunkEnd_gt t m start hm hlt
    by_cases hpe : p < chunkEnd t m start
    · exact ⟨_, List.mem_cons_self _ _, hsp, hpe⟩
    · have hnextgt := chunkNext_gt m o start (chunkEnd t m start) ho hgt
      have hnextle := chunkNext_le m o start (chunkEnd t m start)
      obtain ⟨c, hmem, hcp⟩ := chunkTextAux_cover t m o ho fuel
        (chunkNext m o start (chunkEnd t m start)) (by omega) (by omega)
        p (by omega) hpl
      exact ⟨c, List.mem_cons_of_mem _ hmem, hcp⟩

/-- The head chunk of a run starting at `start` starts at `start`. -/
lemma chunkTextAux_head_start (t : List Char) (m o : Nat) (fuel : Nat) (start : Int) :
    ∀ c ∈ (chunkTextAux t m o fuel start).head?, c.start_char = start := by
  cases fuel with
  | zero => intro c hc; simp [chunkTextAux] at hc
  | succ fuel =>
    intro c hc
    rw [chunkTextAux] at hc
    by_cases hlt : start < (t.length : Int)
    · rw [if_pos hlt] at hc
      simp only [List.head?_cons, Option.mem_def, Option.some.injEq] at hc
      rw [← hc]
    · rw [if_neg hlt] at hc
      simp at hc

/-- Consecutive emitted chunks are in strictly increasing start order, leave
no gap, and overlap by at most `overlap` characters. -/
lemma chunkTextAux_chain (t : List Char) (m o : Nat) (ho : o < m) :
    ∀ (fuel : Nat) (start : Int), 0 ≤ start →
    List.Chain' (fun a b =>
      a.start_char < b.start_char ∧ b.start_char ≤ a.end_char ∧
      a.end_char - b.start_char ≤ (o : Int)) (chunkTextAux t m o fuel start)
  | 0, start, _ => by simp [chunkTextAux]
  | fuel + 1, start, h0 => by
    rw [chunkTextAux]
    by_cases hlt : start < (t.length : Int)
    · rw [if_pos hlt]
      have hm : 1 ≤ m := by omega
      have hgt := chunkEnd_gt t m start hm hlt
      have hadd := chunkEnd_le_add t m start h0
      have hnextgt := chunkNext_gt m o start (chunkEnd t m start) ho hgt
      have hnextle := chunkNext_le m o start (chunkEnd t m start)
      refine List.chain'_cons'.mpr ⟨?_, ?_⟩
      · intro b hb
        have hbs := chunkTextAux_head_start t m o fuel
          (chunkNext m o start (chunkEnd t m start)) b hb
        have hover := chunkNext_overlap m o start (chunkEnd t m start) hadd
        refine ⟨?_, ?_, ?_⟩ <;> simp only [hbs] <;> omega
      · exact chunkTextAux_chain t m o ho fuel _ (by omega)
    · rw [if_neg hlt]
      simp

/-- The loop advances `start` by at least one per iteration, so it emits at
most `len - start` chunks. -/
lemma chunkTextAux_length (t : List Char) (m o : Nat) (ho : o < m) :
    ∀ (fuel : Nat) (start : Int), 0 ≤ start →
    (chunkTextAux t m o fuel start).length ≤ ((t.length : Int) - start).toNat
  | 0, start, _ => by simp [chunkTextAux]
  | fuel + 1, start, h0 => by
    rw [chunkTextAux]
    by_cases hlt : start < (t.length : Int)
    · rw [if_pos hlt]
      have hm : 1 ≤ m := by omega
      have hgt := chunkEnd_gt t m start hm hlt
      have hnextgt := chunkNext_gt m o start (chunkEnd t m start) ho hgt
      have := chunkTextAux_length t m o ho fuel
        (chunkNext m o start (chunkEnd t m start)) (by omega)
      simp only [List.length_cons]
      omega
    · rw [if_neg hlt]
      simp

/-- Past the remaining length, the result does not depend on the fuel: the
loop has terminated. -/
lemma chunkTextAux_fuel (t : List Char) (m o : Nat) (ho : o < m) :
    ∀ (f1 f2 : Nat) (start : Int), 0 ≤ start →
    (t.length : Int) ≤ start + f1 → (t.length : Int) ≤ start + f2 →
    chunkTextAux t m o f1 start = chunkTextAux t m o f2 start
  | 0, f2, start, h0, h1, h2 => by
    have hge : ¬ start < (t.length : Int) := by omega
    cases f2 with
    | zero => rfl
    | succ f2 => rw [chunkTextAux, chunkTextAux, if_neg hge]
  | f1 + 1, f2, start, h0, h1, h2 => by
    cases f2 with
    | zero =>
      have hge : ¬ start < (t.length : Int) := by omega
      rw [chunkTextAux, chunkTextAux, if_neg hge]
    | succ f2 =>
      rw [chunkTextAux, chunkTextAux]
      by_cases hlt : start < (t.length : Int)
      · rw [if_pos hlt, if_pos hlt]
        have hm : 1 ≤ m := by omega
        have hgt := chunkEnd_gt t m start hm hlt
        have hnextgt := chunkNext_gt m o start (chunkEnd t m start) ho hgt
        rw [chunkTextAux_fuel t m o ho f1 f2
          (chunkNext m o start (chunkEnd t m start)) (by omega) (by omega) (by omega)]
      · rw [if_neg hlt, if_neg hlt]

/-- C1: for every text and `overlap < chunk_size`, the chunks returned by
`chunk_text` cover every position of `[0, len)` with no gaps, are in
strictly increasing start order with `next.start_char ≤ cur.end_char`, and
any two consecutive chunks overlap by at most `overlap` characters. -/
theorem chunk_text_covers_no_gaps_bounded_overlap (t : List Char) (m o : Nat)
    (ho : o < m) :
    (∀ p : Int, 0 ≤ p → p < (t.length : Int) →
      ∃ c ∈ chunk_text t m o, c.start_char ≤ p ∧ p < c.end_char) ∧
    List.Chain' (fun a b =>
      a.start_char < b.start_char ∧ b.start_char ≤ a.end_char ∧
      a.end_char - b.start_char ≤ (o : Int)) (chunk_text t m o) := by
  constructor
  · intro p hp0 hpl
    exact chunkTextAux_cover t m o ho (t.length + 1) 0 le_rfl (by omega) p hp0 hpl
  · exact chunkTextAux_chain t m o ho (t.length + 1) 0 le_rfl

/-- Witness for C1 at the concrete text `"ab cd"`, `chunk_size = 4`,
`overlap = 1`: position 2 is covered and the chain property holds. -/
theorem chunk_text_covers_no_gaps_bounded_overlap_witness :
    (∃ c ∈ chunk_text (String.toList "ab cd") 4 1,
      c.start_char ≤ 2 ∧ (2 : Int) < c.end_char) ∧
    List.Chain' (fun a b =>
      a.start_char < b.start_char ∧ b.start_char ≤ a.end_char ∧
      a.end_char - b.start_char ≤ ((1 : Nat) : Int))
      (chunk_text (String.toList "ab cd") 4 1) :=
  ⟨(chunk_text_covers_no_gaps_bounded_overlap (String.toList "ab cd") 4 1
      (by decide)).1 2 (by decide) (by decide),
   (chunk_text_covers_no_gaps_bounded_overlap (String.toList "ab cd") 4 1
      (by decide)).2⟩

/-- C2 counterexample: on a 33-character text with chunk size 10 and
overlap 0, `chunk_text` emits 6 chunks, while the claimed bound
`ceil(len / (m - o)) + 1` is 5 — the word-boundary retraction can halve the
progress of an iteration, so the claimed iteration bound fails. -/
theorem chunk_text_iteration_bound_counterexample :
    c2text.length = 33 ∧
    (chunk_text c2text 10 0).length = 6 ∧
    (c2text.length + (10 - 0) - 1) / (10 - 0) + 1 = 5 ∧
    ¬ ((chunk_text c2text 10 0).length ≤
        (c2text.length + (10 - 0) - 1) / (10 - 0) + 1) := by decide

/-- C2 amended: with `overlap < chunk_size` every loop iteration advances
`start_index` by at least one character, so `chunk_text` terminates after at
most `len(text)` iterations (one chunk per iteration): the returned list has
at most `len(text)` chunks, and any fuel of at least `len(text)` iterations
yields the same (terminated) result. -/
theorem chunk_text_terminates_within_length_iterations (t : List Char) (m o : Nat)
    (ho : o < m) :
    (chunk_text t m o).length ≤ t.length ∧
    ∀ fuel, t.length ≤ fuel → chunkTextAux t m o fuel 0 = chunk_text t m o := by
  constructor
  · have h := chunkTextAux_length t m o ho (t.length + 1) 0 le_rfl
    unfold chunk_text
    omega
  · intro fuel hf
    exact chunkTextAux_fuel t m o ho fuel (t.length + 1) 0 le_rfl
      (by omega) (by omega)

/-- Witness for the amended C2 at `"ab cd"`, `chunk_size = 4`,
`overlap = 1`, fuel 7. -/
theorem chunk_text_terminates_within_length_iterations_witness :
    (chunk_text (String.toList "ab cd") 4 1).length ≤ (String.toList "ab cd").length ∧
    chunkTextAux (String.toList "ab cd") 4 1 7 0 = chunk_text (String.toList "ab cd") 4 1 :=
  ⟨(chunk_text_terminates_within_length_iterations (String.toList "ab cd") 4 1
      (by decide)).1,
   (chunk_text_terminates_within_length_iterations (String.toList "ab cd") 4 1
      (by decide)).2 7 (by decide)⟩

/-- C10 counterexample: with `chunk_size = 1`, `overlap = 2` (allowed by the
claim, which only requires `chunk_size ≥ 1` and `overlap ≥ 0`) on the text
`"ab"`, the loop's `start_index` goes negative and it emits a chunk whose
`start_char` is `-1` (the Python loop in fact never terminates there,
emitting chunks with ever more negative offsets; the embedded trace shows
its first iterations). -/
theorem chunk_text_offsets_counterexample :
    ¬ ∀ c ∈ chunk_text (String.toList "ab") 1 2,
        0 ≤ c.start_char ∧ c.start_char < c.end_char ∧
        c.end_char ≤ ((String.toList "ab").length : Int) := by decide

/-- C10 amended: with `overlap < chunk_size`, every chunk returned by
`chunk_text` has `0 ≤ start_char < end_char ≤ len(text)` (nonempty, in
range), spans at most `chunk_size` characters, and its `text` is exactly
the slice of the input text at `[start_char, end_char)`. -/
theorem chunk_text_offsets_reproduce_text (t : List Char) (m o : Nat) (ho : o < m) :
    ∀ c ∈ chunk_text t m o,
      c.text = (t.drop c.start_char.toNat).take (c.end_char.toNat - c.start_char.toNat) ∧
      0 ≤ c.start_char ∧ c.start_char < c.end_char ∧
      c.end_char ≤ (t.length : Int) ∧ c.end_char - c.start_char ≤ (m : Int) := by
  intro c hc
  obtain ⟨h1, h2, h3, h4, h5⟩ := chunkTextAux_mem t m o ho (t.length + 1) 0 le_rfl c hc
  exact ⟨h5, h1, h2, h3, h4⟩

/-- Witness for the amended C10: the first chunk of `chunk_text "ab cd" 4 1`
is `⟨"ab", 0, 2⟩` and satisfies all the properties. -/
theorem chunk_text_offsets_reproduce_text_witness :
    (Chunk.mk (String.toList "ab") 0 2).text =
      ((String.toList "ab cd").drop (0 : Int).toNat).take
        ((2 : Int).toNat - (0 : Int).toNat) ∧
    (0 : Int) ≤ (Chunk.mk (String.toList "ab") 0 2).start_char ∧
    (Chunk.mk (String.toList "ab") 0 2).start_char <
      (Chunk.mk (String.toList "ab") 0 2).end_char ∧
    (Chunk.mk (String.toList "ab") 0 2).end_char ≤ (((String.toList "ab cd").length : Nat) : Int) ∧
    (Chunk.mk (String.toList "ab") 0 2).end_char -
      (Chunk.mk (String.toList "ab") 0 2).start_char ≤ ((4 : Nat) : Int) :=
  chunk_text_offsets_reproduce_text (String.toList "ab cd") 4 1 (by decide)
    (Chunk.mk (String.toList "ab") 0 2) (by decide)

/-- Every row the insertion loop produces belongs to the
`(stock_id, doc_name)` pair it was called with. -/
lemma insertRows_matches (hash : List Char → String) (sid : Int) (dn : String) :
    ∀ (i : Nat) (chunks : List (List Char)) (embs : List (List Rat))
      (metas : List ChunkMeta),
    ∀ r ∈ insertRows hash sid dn i chunks embs metas, matchesDoc sid dn r = true
  | _, [], _, _, r, hr => by rw [insertRows] at hr; cases hr
  | _, _ :: _, [], _, r, hr => by rw [insertRows] at hr; cases hr
  | _, _ :: _, _ :: _, [], r, hr => by rw [insertRows] at hr; cases hr
  | i, chunk :: chunks, emb :: embs, meta :: metas, r, hr => by
    rw [insertRows] at hr
    rcases List.mem_cons.mp hr with h | h
    · subst h
      simp [matchesDoc]
    · exact insertRows_matches hash sid dn (i + 1) chunks embs metas r h

/-- The `enumerate` counter only grows along the insertion loop. -/
lemma insertRows_index_ge (hash : List Char → String) (sid : Int) (dn : String) :
    ∀ (i : Nat) (chunks : List (List Char)) (embs : List (List Rat))
      (metas : List ChunkMeta),
    ∀ r ∈ insertRows hash sid dn i chunks embs metas, i ≤ r.chunk_index
  | _, [], _, _, r, hr => by rw [insertRows] at hr; cases hr
  | _, _ :: _, [], _, r, hr => by rw [insertRows] at hr; cases hr
  | _, _ :: _, _ :: _, [], r, hr => by rw [insertRows] at hr; cases hr
  | i, chunk :: chunks, emb :: embs, meta :: metas, r, hr => by
    rcases List.mem_cons.mp (by rw [insertRows] at hr; exact hr) with h | h
    · subst h; exact le_rfl
    · have := insertRows_index_ge hash sid dn (i + 1) chunks embs metas r h
      omega

/-- The inserted rows carry pairwise distinct `chunk_index` values. -/
lemma insertRows_nodup_index (hash : List Char → String) (sid : Int) (dn : String) :
    ∀ (i : Nat) (chunks : List (List Char)) (embs : List (List Rat))
      (metas : List ChunkMeta),
    ((insertRows hash sid dn i chunks embs metas).map
      (fun r => r.chunk_index)).Nodup
  | _, [], _, _ => by rw [insertRows]; simp
  | _, _ :: _, [], _ => by rw [insertRows]; simp
  | _, _ :: _, _ :: _, [] => by rw [insertRows]; simp
  | i, chunk :: chunks, emb :: embs, meta :: metas => by
    rw [insertRows]
    simp only [List.map_cons, List.nodup_cons]
    refine ⟨?_, insertRows_nodup_index hash sid dn (i + 1) chunks embs metas⟩
    intro hmem
    obtain ⟨r, hr, hri⟩ := List.mem_map.mp hmem
    have := insertRows_index_ge hash sid dn (i + 1) chunks embs metas r hr
    omega

/-- Deleting a pair's rows from a table extended by rows of that pair gives
the same result as deleting from the original table. -/
lemma delete_append_matching (db rows : List EmbRow) (sid : Int) (dn : String)
    (hrows : ∀ r ∈ rows, matchesDoc sid dn r = true) :
    (delete_document (db ++ rows) sid dn).1 = (delete_document db sid dn).1 := by
  unfold delete_document
  dsimp only
  rw [List.filter_append]
  have h : rows.filter (fun r => !(matchesDoc sid dn r)) = [] :=
    List.filter_eq_nil_iff.mpr (fun a ha => by rw [hrows a ha]; simp)
  rw [h, List.append_nil]

/-- Deleting a pair twice is the same as deleting it once. -/
lemma delete_idem (db : List EmbRow) (sid : Int) (dn : String) :
    (delete_document (delete_document db sid dn).1 sid dn).1 =
      (delete_document db sid dn).1 := by
  unfold delete_document
  dsimp only
  rw [List.filter_filter]
  congr 1
  funext a
  cases matchesDoc sid dn a <;> rfl

/-- After deleting the pair, no row of the pair remains, so the pair's rows
in `delete ++ fresh` are exactly the fresh rows. -/
lemma filter_matches_reindex (db rows : List EmbRow) (sid : Int) (dn : String)
    (hrows : ∀ r ∈ rows, matchesDoc sid dn r = true) :
    ((delete_document db sid dn).1 ++ rows).filter (fun r => matchesDoc sid dn r) =
      rows := by
  unfold delete_document
  dsimp only
  rw [List.filter_append, List.filter_filter]
  have h1 : db.filter (fun a => matchesDoc sid dn a && !(matchesDoc sid dn a)) = [] :=
    List.filter_eq_nil_iff.mpr (fun a _ => by cases matchesDoc sid dn a <;> simp)
  rw [h1, List.filter_eq_self.mpr hrows, List.nil_append]

/-- C3 counterexample: `index_pdf_document` does not remove the pair's
existing rows.  Indexing the same one-page document twice for stock 7,
document `"doc"`, leaves 2 rows where one run leaves 1, with two rows for
the same `(stock_id, doc_name, chunk_index)` triple `(7, "doc", 0)`. -/
theorem index_pdf_document_reindex_duplicates_counterexample :
    c3db1.length = 1 ∧ c3db2.length = 2 ∧
    ¬ (c3db2.map (fun r => (r.stock_id, r.doc_name, r.chunk_index))).Nodup ∧
    c3db2.length ≠ c3db1.length := by decide

/-- C3 amended: the deletion is a separate step the caller runs first, as
the repository's driver does (`delete_document`, then `index_pdf_document`).
That combination is idempotent: running it again gives the identical table;
the pair's rows after a run are the same whatever table the run started
from (same count, same hashes); and the pair's rows never repeat a
`chunk_index`. -/
theorem delete_then_index_idempotent (hash : List Char → String)
    (embed : List (List Char) → List (List Rat)) (sid : Int) (dn : String)
    (rd rt : Option String) (pages : List PageData) (db db2 : List EmbRow) :
    reindex_document hash embed sid dn rd rt pages
        (reindex_document hash embed sid dn rd rt pages db) =
      reindex_document hash embed sid dn rd rt pages db ∧
    (reindex_document hash embed sid dn rd rt pages db).filter
        (fun r => matchesDoc sid dn r) =
      (reindex_document hash embed sid dn rd rt pages db2).filter
        (fun r => matchesDoc sid dn r) ∧
    (((reindex_document hash embed sid dn rd rt pages db).filter
        (fun r => matchesDoc sid dn r)).map (fun r => r.chunk_index)).Nodup := by
  have hrows : ∀ r ∈ insertRows hash sid dn 0 (docChunks rd rt pages)
      (embed (docChunks rd rt pages)) (docMetas rd rt pages),
      matchesDoc sid dn r = true :=
    insertRows_matches hash sid dn 0 _ _ _
  refine ⟨?_, ?_, ?_⟩
  · show index_pdf_document hash embed
      (delete_document (reindex_document hash embed sid dn rd rt pages db) sid dn).1
      sid dn rd rt pages = _
    unfold reindex_document index_pdf_document store_chunks_with_embeddings
    dsimp only
    rw [delete_append_matching _ _ sid dn hrows, delete_idem]
  · show ((delete_document db sid dn).1 ++ _).filter _ =
      ((delete_document db2 sid dn).1 ++ _).filter _
    rw [filter_matches_reindex db _ sid dn hrows,
      filter_matches_reindex db2 _ sid dn hrows]
  · show (((delete_document db sid dn).1 ++ _).filter _).map _ |>.Nodup
    rw [filter_matches_reindex db _ sid dn hrows]
    exact insertRows_nodup_index hash sid dn 0 _ _ _

/-- The inserted rows depend on the chunk texts only through their
digests: chunk lists with equal digest lists produce identical rows. -/
lemma insertRows_hash_congr (hash : List Char → String) (sid : Int) (dn : String) :
    ∀ (chunks chunks' : List (List Char)),
      chunks.map hash = chunks'.map hash →
    ∀ (i : Nat) (embs : List (List Rat)) (metas : List ChunkMeta),
      insertRows hash sid dn i chunks embs metas =
        insertRows hash sid dn i chunks' embs metas := by
  intro chunks
  induction chunks with
  | nil =>
    intro chunks' h i embs metas
    cases chunks' with
    | nil => rfl
    | cons c1 cs1 => simp at h
  | cons c cs ih =>
    intro chunks' h i embs metas
    cases chunks' with
    | nil => simp at h
    | cons c1 cs1 =>
      simp only [List.map_cons, List.cons.injEq] at h
      cases embs with
      | nil => rw [insertRows, insertRows]
      | cons e es =>
        cases metas with
        | nil => rw [insertRows, insertRows]
        | cons mt ms =>
          rw [insertRows, insertRows, h.1, ih cs1 h.2 (i + 1) es ms]

/-- C5: no inserted row contains the fragment's literal text — each row is
built from the identity fields, the fragment's digest, the embedding and
the position metadata alone.  Formally the table update factors through
the digests: replacing every chunk text by any other text with the same
digest leaves the inserted rows (and the whole resulting table) unchanged,
and the rows are exactly the `EmbRow` records, a type with no text field. -/
theorem store_chunks_no_text_dependence (hash : List Char → String)
    (db : List EmbRow) (sid : Int) (dn : String)
    (chunks chunks' : List (List Char)) (embs : List (List Rat))
    (metas : List ChunkMeta) (h : chunks.map hash = chunks'.map hash) :
    store_chunks_with_embeddings hash db sid dn chunks embs metas =
      store_chunks_with_embeddings hash db sid dn chunks' embs metas := by
  unfold store_chunks_with_embeddings
  rw [insertRows_hash_congr hash sid dn chunks chunks' h 0 embs metas]

/-- Witness for C5: under the length digest, storing the chunk `"ab"` and
storing the different chunk `"cd"` (same digest) yield identical tables. -/
theorem store_chunks_no_text_dependence_witness :
    store_chunks_with_embeddings lenHash [] 7 "doc" [String.toList "ab"]
        [[(0 : Rat)]] [ChunkMeta.mk 1 1 0 2 "pdf" none none none] =
      store_chunks_with_embeddings lenHash [] 7 "doc" [String.toList "cd"]
        [[(0 : Rat)]] [ChunkMeta.mk 1 1 0 2 "pdf" none none none] :=
  store_chunks_no_text_dependence lenHash [] 7 "doc" [String.toList "ab"]
    [String.toList "cd"] [[(0 : Rat)]] [ChunkMeta.mk 1 1 0 2 "pdf" none none none]
    (by decide)

/-- C4 counterexample: the SQL of `search_similar_chunks` orders only by
`embedding <=> query` with no secondary key, so a result list that puts the
row with the larger `id` first among equal-similarity rows satisfies
everything the query guarantees — the claimed ascending-id tie-break is
not enforced.  Here both rows are at distance 0 and the valid result
`[id 2, id 1]` violates the tie-break. -/
theorem search_tie_break_counterexample :
    searchResultSpec c4dist [c4row1, c4row2] none none 2 [c4row2, c4row1] ∧
    ¬ List.Chain' (fun a b =>
        similarity c4dist b < similarity c4dist a ∨
        (similarity c4dist b = similarity c4dist a ∧ a.id < b.id))
      [c4row2, c4row1] := by
  constructor
  · refine ⟨by decide, ⟨[], by decide, by decide⟩, ?_⟩
    exact List.chain'_cons.mpr ⟨by decide, List.chain'_singleton _⟩
  · intro h
    rcases (List.chain'_cons.mp h).1 with hlt | ⟨heq, hid⟩
    · exact absurd hlt (lt_irrefl _)
    · exact absurd hid (by decide)

/-- C4 amended: every result list of `search_similar_chunks` is ordered by
nonincreasing cosine similarity (`1 - distance`), has at most `top_k`
entries, and every entry passes the active filters; the order among results
of equal similarity is unspecified (the query has no secondary sort
key). -/
theorem search_results_descending_similarity (dist : List Rat → Rat)
    (table : List SearchRow) (stock_id : Option Int) (doc_name : Option String)
    (k : Nat) (res : List SearchRow)
    (h : searchResultSpec dist table stock_id doc_name k res) :
    List.Chain' (fun a b => similarity dist b ≤ similarity dist a) res ∧
    res.length ≤ k ∧
    ∀ r ∈ res, rowMatchesFilter stock_id doc_name r = true := by
  obtain ⟨hlen, ⟨rest, hperm, _⟩, hchain⟩ := h
  refine ⟨?_, ?_, ?_⟩
  · refine List.Chain'.imp ?_ hchain
    intro a b hab
    unfold similarity
    linarith
  · omega
  · intro r hr
    have hmem : r ∈ table.filter (rowMatchesFilter stock_id doc_name) :=
      hperm.mem_iff.mp (List.mem_append_left rest hr)
    exact (List.mem_filter.mp hmem).2

/-- Witness for the amended C4: the correctly ordered result
`[id 1, id 2]` for the same table satisfies the conclusion. -/
theorem search_results_descending_similarity_witness :
    List.Chain' (fun a b => similarity c4dist b ≤ similarity c4dist a)
      [c4row1, c4row2] ∧
    [c4row1, c4row2].length ≤ 2 ∧
    ∀ r ∈ [c4row1, c4row2], rowMatchesFilter none none r = true :=
  search_results_descending_similarity c4dist [c4row1, c4row2] none none 2
    [c4row1, c4row2]
    ⟨by decide, ⟨[], by decide, by decide⟩,
     List.chain'_cons.mpr ⟨by decide, List.chain'_singleton _⟩⟩

/-- C6: when retrieval returns zero chunks, `generate_answer` returns the
fixed "no relevant documents" answer with empty context and empty sources
and performs zero completion calls, whatever the completion capability
would have answered. -/
theorem generate_answer_zero_results_short_circuit (results : List QueryResult)
    (query_text : String) (llm : String → Except String String)
    (h : results = []) :
    generate_answer results query_text llm =
      (Answer.mk query_text noDocsAnswer "" [] "No documents available", 0) := by
  subst h
  rfl

/-- Witness for C6 at a concrete query and completion stub. -/
theorem generate_answer_zero_results_short_circuit_witness :
    generate_answer [] "what is the revenue?" (fun _ => Except.ok "stub") =
      (Answer.mk "what is the revenue?" noDocsAnswer "" [] "No documents available", 0) :=
  generate_answer_zero_results_short_circuit [] "what is the revenue?"
    (fun _ => Except.ok "stub") rfl

/-- C7: `retrieve_chunk_text_from_pdf` returns `none` — rather than raising
— when the archived file is absent and when the page number is out of
range; and in every case it returns an `Option` value (the embedding is a
total function: every failure of the Python code is caught and mapped to
`None`). -/
theorem retrieve_chunk_text_absent_not_exception
    (fs : String → Option (Except String (List (Except String String))))
    (dir : String) (stock_id : Int) (doc_name : String) (chunk_index : Nat)
    (page_num : Int) :
    (fs (dir ++ "/" ++ toString stock_id ++ "/" ++ doc_name) = none →
      retrieve_chunk_text_from_pdf fs dir stock_id doc_name chunk_index page_num = none) ∧
    (∀ pages,
      fs (dir ++ "/" ++ toString stock_id ++ "/" ++ doc_name) = some (Except.ok pages) →
      (page_num < 1 ∨ (pages.length : Int) < page_num) →
      retrieve_chunk_text_from_pdf fs dir stock_id doc_name chunk_index page_num = none) ∧
    (retrieve_chunk_text_from_pdf fs dir stock_id doc_name chunk_index page_num = none ∨
      ∃ text,
        retrieve_chunk_text_from_pdf fs dir stock_id doc_name chunk_index page_num =
          some text) := by
  refine ⟨?_, ?_, ?_⟩
  · intro h
    unfold retrieve_chunk_text_from_pdf
    rw [h]
  · intro pages hfs hrange
    unfold retrieve_chunk_text_from_pdf
    rw [hfs]
    dsimp only
    rw [if_pos hrange]
  · cases h : retrieve_chunk_text_from_pdf fs dir stock_id doc_name chunk_index page_num with
    | none => exact Or.inl rfl
    | some text => exact Or.inr ⟨text, rfl⟩

/-- Witness for C7: a missing file and an out-of-range page both yield
`none`. -/
theorem retrieve_chunk_text_absent_not_exception_witness :
    retrieve_chunk_text_from_pdf (fun _ => none) "pdf_storage" 7 "doc" 0 1 = none ∧
    retrieve_chunk_text_from_pdf (fun _ => some (Except.ok [Except.ok "t"]))
      "pdf_storage" 7 "doc" 0 2 = none :=
  ⟨(retrieve_chunk_text_absent_not_exception (fun _ => none) "pdf_storage"
      7 "doc" 0 1).1 rfl,
   (retrieve_chunk_text_absent_not_exception
      (fun _ => some (Except.ok [Except.ok "t"])) "pdf_storage" 7 "doc" 0 2).2.1
      [Except.ok "t"] rfl (by decide)⟩

/-- C8 counterexample: one event whose durable write fails.  The consumer
advances and its auto-commit commits position 1 although nothing was
written, and the event got exactly one write attempt — no retry before
advancing. -/
theorem consumer_commits_past_unwritten_counterexample :
    (consumerRun [(ChatMsg.mk "m", false)]).committed = 1 ∧
    (consumerRun [(ChatMsg.mk "m", false)]).written = [] ∧
    (consumerRun [(ChatMsg.mk "m", false)]).write_attempts = [(0, false)] ∧
    (consumerRun [(ChatMsg.mk "m", false)]).reconnect_attempts = 1 := by decide

/-- Each loop iteration's effect, accumulated over a run from any starting
state. -/
lemma consumeSteps_spec (events : List (ChatMsg × Bool)) :
    ∀ s : ConsumerState,
    (events.foldl (fun s e => consumeStep s e.1 e.2) s).consumed =
        s.consumed + events.length ∧
    (events ≠ [] →
      (events.foldl (fun s e => consumeStep s e.1 e.2) s).committed =
        s.consumed + events.length) ∧
    (events.foldl (fun s e => consumeStep s e.1 e.2) s).written =
        s.written ++ (events.filter (fun e => e.2)).map Prod.fst ∧
    (events.foldl (fun s e => consumeStep s e.1 e.2) s).write_attempts.length =
        s.write_attempts.length + events.length ∧
    (events.foldl (fun s e => consumeStep s e.1 e.2) s).reconnect_attempts =
        s.reconnect_attempts + (events.filter (fun e => !e.2)).length := by
  induction events with
  | nil => intro s; simp
  | cons e es ih =>
    intro s
    obtain ⟨h1, h2, h3, h4, h5⟩ := ih (consumeStep s e.1 e.2)
    have hcs : (consumeStep s e.1 e.2).consumed = s.consumed + 1 := rfl
    have hcm : (consumeStep s e.1 e.2).committed = s.consumed + 1 := rfl
    have hw : (consumeStep s e.1 e.2).written =
        (write_chat_message e.2 s.written e.1).1 := rfl
    have ha : (consumeStep s e.1 e.2).write_attempts =
        s.write_attempts ++ [(s.consumed, e.2)] := rfl
    have hr : (consumeStep s e.1 e.2).reconnect_attempts =
        s.reconnect_attempts + (if e.2 then 0 else 1) := rfl
    refine ⟨?_, ?_, ?_, ?_, ?_⟩
    · simp only [List.foldl_cons]
      rw [h1, hcs, List.length_cons]
      omega
    · intro _
      cases es with
      | nil =>
        simp only [List.foldl_cons, List.foldl_nil]
        rw [hcm]
        rfl
      | cons e2 es2 =>
        rw [List.foldl_cons, h2 (by simp), hcs]
        simp only [List.length_cons]
        omega
    · simp only [List.foldl_cons]
      rw [h3, hw]
      cases he : e.2 <;>
        simp [write_chat_message, he, List.filter_cons]
    · simp only [List.foldl_cons]
      rw [h4, ha]
      simp only [List.length_append, List.length_cons, List.length_nil]
      omega
    · simp only [List.foldl_cons]
      rw [h5, hr]
      cases he : e.2 <;> simp [List.filter_cons, he] <;> omega

/-- C8 amended: the consumer's committed read position advances with every
polled event regardless of the durable write's outcome
(`enable_auto_commit=True`); exactly the successfully written events reach
the database, in order; each event receives exactly one write attempt (no
retry before advancing); and the writer attempts one fresh connection per
failed write. -/
theorem consumer_auto_commit_no_retry (events : List (ChatMsg × Bool)) :
    (consumerRun events).committed = events.length ∧
    (consumerRun events).written = (events.filter (fun e => e.2)).map Prod.fst ∧
    (consumerRun events).write_attempts.length = events.length ∧
    (consumerRun events).reconnect_attempts =
      (events.filter (fun e => !e.2)).length := by
  obtain ⟨h1, h2, h3, h4, h5⟩ := consumeSteps_spec events initConsumer
  unfold consumerRun
  refine ⟨?_, by simpa [initConsumer] using h3, by simpa [initConsumer] using h4,
    by simpa [initConsumer] using h5⟩
  cases events with
  | nil => rfl
  | cons e es =>
    have := h2 (by simp)
    simpa [initConsumer] using this

/-- C9: the four ticker-extraction test vectors of the specification hold
on `extract_ticker_from_question`: the leftmost uppercase ticker-like
token wins; a company-name match maps to its symbol; a question with
neither yields nothing. -/
theorem extract_ticker_test_vectors :
    extract_ticker_from_question "What is AAPL's revenue?" = some "AAPL" ∧
    extract_ticker_from_question "Tell me about Tesla's production" = some "TSLA" ∧
    extract_ticker_from_question "How is the market doing?" = none ∧
    extract_ticker_from_question "Compare AAPL and MSFT" = some "AAPL" := by
  refine ⟨by decide, by decide, by decide, by decide⟩

end Site

